import Mathlib

/-!
Verification of the Thought Tracker report pipeline.

This file gives a shallow embedding of the program in src/main.py and proves
properties of it.  Persisted CSV files are modelled as Lean lists of records,
pandas dataframe operations are modelled by the list operations they perform
(filter, value_counts as a stable count-descending sort of the distinct values
in first-appearance order, idxmax as the first index attaining the maximum,
drop_duplicates as first occurrences, sort_values as a sort by the given keys),
and the external summarizer is modelled as a function returning either a
summary or an error.
-/

/-- Calendar date at day resolution, as parsed from the d/m/Y date strings. -/
structure Date where
  day : Nat
  month : Nat
  year : Nat
deriving DecidableEq

/-- One journal entry: a row of thought.csv (columns date, emotion, thought). -/
structure Entry where
  date : Date
  emotion : String
  thought : String
deriving DecidableEq

/-- An aggregation period, the (month, year) key of a report. -/
structure Period where
  month : Nat
  year : Nat
deriving DecidableEq

/-- One cached report: a row of reports.csv. -/
structure Report where
  month : Nat
  year : Nat
  total_thoughts : Nat
  most_frequent_emotion : String
  happy_count : Nat
  sad_count : Nat
  angry_count : Nat
  ai_summary : String
deriving DecidableEq

/-- The whitespace characters removed by the Python str.strip used for
validation and for the blank-summary check (ASCII whitespace). -/
def isPyWs (c : Char) : Bool :=
  c = ' ' || c = '\t' || c = '\n' || c = '\r' || c = '\x0b' || c = '\x0c'

/-- Python str.strip: remove leading and trailing whitespace. -/
def pystrip (s : String) : String :=
  String.mk (((s.data.dropWhile isPyWs).reverse.dropWhile isPyWs).reverse)

/-- Distinct values of a list, in order of first appearance.  This is the key
order produced by the pandas hash table underlying both value_counts and
drop_duplicates. -/
def firstOccs {α : Type} [DecidableEq α] : List α → List α
  | [] => []
  | a :: rest => a :: (firstOccs rest).filter (fun b => b ≠ a)

/-- Order on (value, count) pairs putting larger counts first; value_counts
sorts by count descending. -/
def countsDesc (a b : String × Nat) : Prop := b.2 ≤ a.2

instance (a b : String × Nat) : Decidable (countsDesc a b) := by
  unfold countsDesc; infer_instance

instance : DecidableRel countsDesc := fun a b => inferInstance

instance : IsTotal (String × Nat) countsDesc := by
  constructor; intro a b; unfold countsDesc; omega

instance : IsTrans (String × Nat) countsDesc := by
  constructor; intro a b c; unfold countsDesc; omega

/-- pandas Series.value_counts over a column: one (value, count) pair per
distinct value, sorted by count descending.  The sort is stable with the keys
in first-appearance order (for the small arrays arising here the underlying
numpy sort is insertion sort, which is stable). -/
def value_counts (l : List String) : List (String × Nat) :=
  List.insertionSort countsDesc ((firstOccs l).map (fun v => (v, l.count v)))

/-- One step of the scan that keeps the first pair attaining the maximal
count: a later pair replaces the current best only on a strictly larger
count. -/
def fmStep (p : String × Nat) : Option (String × Nat) → Option (String × Nat)
  | none => some p
  | some q => if p.2 < q.2 then some q else some p

/-- First pair attaining the maximal count, scanning left to right. -/
def firstMax : List (String × Nat) → Option (String × Nat)
  | [] => none
  | p :: rest => fmStep p (firstMax rest)

/-- pandas Series.idxmax: index (here, the value) of the first occurrence of
the maximum; none on an empty series. -/
def series_idxmax (l : List (String × Nat)) : Option String :=
  (firstMax l).map Prod.fst

/-- The three mood literals of the radio control. -/
def moodHappy : String := "Happy"

/-- Mood literal Sad. -/
def moodSad : String := "Sad"

/-- Mood literal Angry. -/
def moodAngry : String := "Angry"

/-- most_freq_emotion of main.py: emotion_counts.idxmax() on the value_counts
series when nonempty, the fallback string otherwise. -/
def most_freq_emotion (es : List Entry) : String :=
  match series_idxmax (value_counts (es.map Entry.emotion)) with
  | some v => v
  | none => "N/A"

/-- happy_count of main.py: emotion_counts.get of the Happy literal. -/
def happy_count (es : List Entry) : Nat := (es.map Entry.emotion).count moodHappy

/-- sad_count of main.py. -/
def sad_count (es : List Entry) : Nat := (es.map Entry.emotion).count moodSad

/-- angry_count of main.py. -/
def angry_count (es : List Entry) : Nat := (es.map Entry.emotion).count moodAngry

/-- The (month, year) period an entry belongs to. -/
def entryPeriod (e : Entry) : Period := { month := e.date.month, year := e.date.year }

/-- Display order of periods: year descending, then month descending
(most recent first). -/
def periodLe (p q : Period) : Prop :=
  q.year < p.year ∨ (q.year = p.year ∧ q.month ≤ p.month)

instance (p q : Period) : Decidable (periodLe p q) := by
  unfold periodLe; infer_instance

instance : DecidableRel periodLe := fun p q => inferInstance

instance : IsTotal Period periodLe := by
  constructor; intro a b; unfold periodLe; omega

instance : IsTrans Period periodLe := by
  constructor; intro a b c; unfold periodLe; omega

/-- unique_periods of main.py: drop_duplicates on the (month, year) columns
followed by sort_values by year and month, both descending. -/
def uniquePeriods (entries : List Entry) : List Period :=
  List.insertionSort periodLe (firstOccs (entries.map entryPeriod))

/-- Rows of the period inside the thoughts dataframe, in stored order
(the pandas boolean-mask filter preserves row order). -/
def periodEntries (entries : List Entry) (p : Period) : List Entry :=
  entries.filter (fun e => e.date.year == p.year && e.date.month == p.month)

/-- The newline-joined concatenation of the period's thoughts handed to the
summarizer. -/
def periodText (entries : List Entry) (p : Period) : String :=
  String.intercalate "\n" ((periodEntries entries p).map Entry.thought)

/-- The external summarizer collaborator: returns generated text or an
error. -/
def Summarizer : Type := String → Except String String

/-- The summary string stored when the external call raises. -/
def failureMarker : String := "AI summary generation failed."

/-- The sentinel summary stored for a period whose joined text is blank. -/
def noThoughtsMarker : String := "No thoughts recorded."

/-- is_current_month of main.py. -/
def isCurrentMonth (now : Date) (p : Period) : Bool :=
  p.month == now.month && p.year == now.year

/-- The summary text produced by the generation branch of main.py: the blank
check, then the guarded summarizer call with the failure marker on error. -/
def genSummary (entries : List Entry) (f : Summarizer) (p : Period) : String :=
  if pystrip (periodText entries p) = "" then noThoughtsMarker
  else
    match f (periodText entries p) with
    | Except.ok s => s
    | Except.error _ => failureMarker

/-- The new_report row built by main.py for a period from its aggregates and
summary. -/
def mkReport (entries : List Entry) (p : Period) (summary : String) : Report :=
  { month := p.month
    year := p.year
    total_thoughts := (periodEntries entries p).length
    most_frequent_emotion := most_freq_emotion (periodEntries entries p)
    happy_count := happy_count (periodEntries entries p)
    sad_count := sad_count (periodEntries entries p)
    angry_count := angry_count (periodEntries entries p)
    ai_summary := summary }

/-- Whether a cached row is keyed by the given period. -/
def sameKey (r : Report) (p : Period) : Bool :=
  r.month == p.month && r.year == p.year

/-- The cache lookup of main.py: the first row matching the period mask
(values[0] of the masked frame). -/
def cacheLookup (cache : List Report) (p : Period) : Option Report :=
  cache.find? (fun r => sameKey r p)

/-- Whether the cache holds any row for the period. -/
def cacheHas (cache : List Report) (p : Period) : Bool :=
  cache.any (fun r => sameKey r p)

/-- The body of the per-period loop of main.py: for a past period with a
cached row, reuse its ai_summary and leave the cache alone; otherwise generate
a summary, and append a new report row exactly when the period is not current
and the summary is not the failure marker. -/
def processPeriod (now : Date) (entries : List Entry) (f : Summarizer)
    (cache : List Report) (p : Period) : List Report × String :=
  if isCurrentMonth now p then
    (cache, genSummary entries f p)
  else
    match cacheLookup cache p with
    | some r => (cache, r.ai_summary)
    | none =>
      let s := genSummary entries f p
      if s = failureMarker then (cache, s)
      else (cache ++ [mkReport entries p s], s)

/-- The per-period loop of main.py, threading the in-memory reports dataframe
through the periods and recording each period's displayed summary. -/
def runAux (now : Date) (entries : List Entry) (f : Summarizer) :
    List Period → List Report → List Report × List (Period × String)
  | [], cache => (cache, [])
  | p :: ps, cache =>
    let step := processPeriod now entries f cache p
    let rest := runAux now entries f ps step.1
    (rest.1, (p, step.2) :: rest.2)

/-- One run of the report tab of main.py: iterate over the unique periods and
return the final reports dataframe (written back to reports.csv) together
with the displayed summaries. -/
def runReports (now : Date) (entries : List Entry) (f : Summarizer)
    (cache : List Report) : List Report × List (Period × String) :=
  runAux now entries f (uniquePeriods entries) cache

/-- The reports cache persisted by one run. -/
def runCache (now : Date) (entries : List Entry) (f : Summarizer)
    (cache : List Report) : List Report :=
  (runReports now entries f cache).1

/-- The validation error shown by the Submit Thought handler. -/
def emptyThoughtMsg : String := "Please enter your thoughts before submitting."

/-- The Submit Thought handler of main.py: reject blank text without touching
the store, otherwise append a row with the current date. -/
def submitThought (store : List Entry) (emotion text : String) (today : Date) :
    List Entry × Option String :=
  if pystrip text = "" then (store, some emptyThoughtMsg)
  else (store ++ [{ date := today, emotion := emotion, thought := text }], none)

/-- load_thoughts_data of main.py: the full ordered sequence of stored
entries (the CSV contents; a missing file is the empty store). -/
def load_thoughts_data (store : List Entry) : List Entry := store

/-! ### Lemmas about the value_counts and idxmax model -/

lemma fmStep_none (p : String × Nat) : fmStep p none = some p := rfl

lemma fmStep_some (p q : String × Nat) :
    fmStep p (some q) = if p.2 < q.2 then some q else some p := rfl

lemma firstMax_nil : firstMax [] = none := rfl

lemma firstMax_cons (p : String × Nat) (rest : List (String × Nat)) :
    firstMax (p :: rest) = fmStep p (firstMax rest) := rfl

lemma fm_mem : ∀ {l : List (String × Nat)} {q : String × Nat},
    firstMax l = some q → q ∈ l := by
  intro l
  induction l with
  | nil => intro q h; exact absurd h (by simp [firstMax_nil])
  | cons p rest ih =>
    intro q h
    rw [firstMax_cons] at h
    cases hr : firstMax rest with
    | none =>
      rw [hr, fmStep_none] at h
      injection h with h
      subst h
      exact List.mem_cons_self _ _
    | some w =>
      rw [hr, fmStep_some] at h
      by_cases hlt : p.2 < w.2
      · rw [if_pos hlt] at h
        injection h with h
        subst h
        exact List.mem_cons_of_mem _ (ih hr)
      · rw [if_neg hlt] at h
        injection h with h
        subst h
        exact List.mem_cons_self _ _

lemma fm_of_sorted : ∀ {s : List (String × Nat)}, s.Sorted countsDesc →
    firstMax s = s.head?
  | [], _ => rfl
  | [_], _ => rfl
  | y :: z :: t, h => by
    have h' := fm_of_sorted h.of_cons
    have hz : countsDesc y z := List.rel_of_sorted_cons h z (List.mem_cons_self _ _)
    rw [firstMax_cons, h']
    show fmStep y (some z) = some y
    rw [fmStep_some, if_neg (by unfold countsDesc at hz; omega)]

lemma head_insertionSort :
    ∀ l : List (String × Nat), (List.insertionSort countsDesc l).head? = firstMax l
  | [] => rfl
  | x :: l => by
    rw [List.insertionSort]
    cases hs : List.insertionSort countsDesc l with
    | nil =>
      have hl : l = [] := by
        have hlen := List.length_insertionSort countsDesc l
        rw [hs] at hlen
        exact List.eq_nil_of_length_eq_zero hlen.symm
      subst hl
      rfl
    | cons y s' =>
      have hIH := head_insertionSort l
      rw [hs] at hIH
      rw [List.orderedInsert]
      by_cases hxy : countsDesc x y
      · rw [if_pos hxy]
        show some x = firstMax (x :: l)
        rw [firstMax_cons, ← hIH]
        show some x = fmStep x (some y)
        rw [fmStep_some, if_neg (by unfold countsDesc at hxy; omega)]
      · rw [if_neg hxy]
        show some y = firstMax (x :: l)
        rw [firstMax_cons, ← hIH]
        show some y = fmStep x (some y)
        rw [fmStep_some, if_pos (by unfold countsDesc at hxy; omega)]

lemma fm_value_counts (l : List String) :
    firstMax (value_counts l) =
      firstMax ((firstOccs l).map (fun v => (v, l.count v))) := by
  rw [value_counts]
  rw [fm_of_sorted (List.sorted_insertionSort countsDesc _)]
  exact head_insertionSort _

lemma fm_map_spec (cnt : String → Nat) :
    ∀ m : List String, m ≠ [] →
      ∃ m₁ w m₂, m = m₁ ++ w :: m₂ ∧
        firstMax (m.map (fun v => (v, cnt v))) = some (w, cnt w) ∧
        (∀ x ∈ m₁, cnt x < cnt w) ∧
        (∀ x ∈ m, cnt x ≤ cnt w) := by
  intro m
  induction m with
  | nil => intro h; exact absurd rfl h
  | cons a m ih =>
    intro _
    cases m with
    | nil =>
      refine ⟨[], a, [], rfl, rfl, by simp, ?_⟩
      intro x hx
      rcases List.mem_singleton.1 hx with h
      subst h; exact Nat.le_refl _
    | cons b m' =>
      obtain ⟨m₁, w, m₂, heq, hfm, hlt, hle⟩ := ih (by simp)
      by_cases hc : cnt a < cnt w
      · refine ⟨a :: m₁, w, m₂, by rw [heq]; rfl, ?_, ?_, ?_⟩
        · show fmStep (a, cnt a) (firstMax ((b :: m').map (fun v => (v, cnt v)))) =
            some (w, cnt w)
          rw [hfm, fmStep_some, if_pos (by simpa using hc)]
        · intro x hx
          rcases List.mem_cons.1 hx with h | h
          · subst h; exact hc
          · exact hlt x h
        · intro x hx
          rcases List.mem_cons.1 hx with h | h
          · subst h; omega
          · exact hle x h
      · refine ⟨[], a, b :: m', rfl, ?_, by simp, ?_⟩
        · show fmStep (a, cnt a) (firstMax ((b :: m').map (fun v => (v, cnt v)))) =
            some (a, cnt a)
          rw [hfm, fmStep_some, if_neg (by simpa using hc)]
        · intro x hx
          rcases List.mem_cons.1 hx with h | h
          · subst h; exact Nat.le_refl _
          · have := hle x h; omega

/-! ### Lemmas about firstOccs -/

lemma mem_firstOccs {α : Type} [DecidableEq α] {a : α} :
    ∀ {l : List α}, a ∈ firstOccs l ↔ a ∈ l := by
  intro l
  induction l with
  | nil => simp [firstOccs]
  | cons b rest ih =>
    rw [firstOccs]
    simp only [List.mem_cons, List.mem_filter, decide_eq_true_eq]
    constructor
    · rintro (h | ⟨h, _⟩)
      · exact Or.inl h
      · exact Or.inr (ih.1 h)
    · rintro (h | h)
      · exact Or.inl h
      · by_cases hab : a = b
        · exact Or.inl hab
        · exact Or.inr ⟨ih.2 h, hab⟩

lemma nodup_firstOccs {α : Type} [DecidableEq α] : ∀ l : List α, (firstOccs l).Nodup
  | [] => List.nodup_nil
  | a :: rest => by
    rw [firstOccs]
    refine List.nodup_cons.2 ⟨?_, (nodup_firstOccs rest).filter _⟩
    intro hmem
    have h := (List.mem_filter.1 hmem).2
    simp at h

lemma pairwise_firstOccs {α : Type} [DecidableEq α] :
    ∀ l : List α, (firstOccs l).Pairwise (fun a b => l.indexOf a < l.indexOf b)
  | [] => List.Pairwise.nil
  | a :: rest => by
    rw [firstOccs]
    refine List.pairwise_cons.2 ⟨?_, ?_⟩
    · intro b hb
      have hba : b ≠ a := by
        have h := (List.mem_filter.1 hb).2; simpa using h
      rw [List.indexOf_cons_self, List.indexOf_cons_ne _ (Ne.symm hba)]
      exact Nat.succ_pos _
    · have hp := (pairwise_firstOccs rest).filter (fun x => decide (x ≠ a))
      refine hp.imp_of_mem ?_
      intro x y hx hy hxy
      have hxa : x ≠ a := by
        have h := (List.mem_filter.1 hx).2; simpa using h
      have hya : y ≠ a := by
        have h := (List.mem_filter.1 hy).2; simpa using h
      rw [List.indexOf_cons_ne _ (Ne.symm hxa), List.indexOf_cons_ne _ (Ne.symm hya)]
      omega

lemma firstOccs_ne_nil {α : Type} [DecidableEq α] {l : List α} (h : l ≠ []) :
    firstOccs l ≠ [] := by
  cases l with
  | nil => exact absurd rfl h
  | cons a rest => rw [firstOccs]; simp

/-! ### Claim C1: dominant mood -/

/-- C1 (amended): most_freq_emotion is a mood of the period attaining the
maximal count, and a tie between moods of equal maximal count is broken in
favour of the mood whose first entry was recorded earliest, not by the fixed
order Happy, Sad, Angry. -/
theorem C1_dominant_mood_first_appearance (es : List Entry) (h : es ≠ []) :
    most_freq_emotion es ∈ es.map Entry.emotion ∧
    (∀ v ∈ es.map Entry.emotion,
      (es.map Entry.emotion).count v ≤
        (es.map Entry.emotion).count (most_freq_emotion es)) ∧
    (∀ v ∈ es.map Entry.emotion,
      (es.map Entry.emotion).count v =
          (es.map Entry.emotion).count (most_freq_emotion es) →
      (es.map Entry.emotion).indexOf (most_freq_emotion es) ≤
        (es.map Entry.emotion).indexOf v) := by
  have hlne : es.map Entry.emotion ≠ [] := by
    cases es with
    | nil => exact absurd rfl h
    | cons e t => simp
  have hmne : firstOccs (es.map Entry.emotion) ≠ [] := firstOccs_ne_nil hlne
  obtain ⟨m₁, w, m₂, heq, hfm, hlt, hle⟩ :=
    fm_map_spec (fun v => (es.map Entry.emotion).count v)
      (firstOccs (es.map Entry.emotion)) hmne
  have hw : w ∈ firstOccs (es.map Entry.emotion) := by
    rw [heq]; exact List.mem_append.2 (Or.inr (List.mem_cons_self _ _))
  have hmfe : most_freq_emotion es = w := by
    unfold most_freq_emotion series_idxmax
    rw [fm_value_counts, hfm]
    rfl
  refine ⟨?_, ?_, ?_⟩
  · rw [hmfe]; exact mem_firstOccs.1 hw
  · intro v hv
    rw [hmfe]
    exact hle v (mem_firstOccs.2 hv)
  · intro v hv htie
    rw [hmfe] at htie ⊢
    by_cases hvw : v = w
    · subst hvw; exact Nat.le_refl _
    have hvm : v ∈ firstOccs (es.map Entry.emotion) := mem_firstOccs.2 hv
    rw [heq] at hvm
    rcases List.mem_append.1 hvm with h1 | h1
    · exact absurd htie (by have := hlt v h1; omega)
    rcases List.mem_cons.1 h1 with h1 | h1
    · exact absurd h1 hvw
    have hpw := pairwise_firstOccs (es.map Entry.emotion)
    rw [heq] at hpw
    have hpw2 := hpw.sublist (List.sublist_append_right m₁ (w :: m₂))
    have hwv := (List.pairwise_cons.1 hpw2).1 v h1
    omega

/-- The counterexample period for C1: two Sad entries recorded before two
Happy entries, all in January 2024. -/
def exC1 : List Entry :=
  [ { date := { day := 1, month := 1, year := 2024 }, emotion := "Sad", thought := "a" }
  , { date := { day := 2, month := 1, year := 2024 }, emotion := "Sad", thought := "b" }
  , { date := { day := 3, month := 1, year := 2024 }, emotion := "Happy", thought := "c" }
  , { date := { day := 4, month := 1, year := 2024 }, emotion := "Happy", thought := "d" } ]

/-- C1 (counterexample): a period with counts Happy=2, Sad=2, Angry=0 whose
dominant mood is Sad, not Happy, because the Sad entries were recorded first;
the claimed fixed tie-break order Happy, Sad, Angry does not hold. -/
theorem C1_counterexample :
    happy_count exC1 = 2 ∧ sad_count exC1 = 2 ∧ angry_count exC1 = 0 ∧
    most_freq_emotion exC1 = moodSad ∧ most_freq_emotion exC1 ≠ moodHappy := by
  refine ⟨rfl, rfl, rfl, rfl, ?_⟩
  decide

/-- Witness for C1_dominant_mood_first_appearance at the concrete period
exC1. -/
theorem C1_dominant_mood_first_appearance_witness :
    exC1 ≠ [] ∧
    (most_freq_emotion exC1 ∈ exC1.map Entry.emotion ∧
    (∀ v ∈ exC1.map Entry.emotion,
      (exC1.map Entry.emotion).count v ≤
        (exC1.map Entry.emotion).count (most_freq_emotion exC1)) ∧
    (∀ v ∈ exC1.map Entry.emotion,
      (exC1.map Entry.emotion).count v =
          (exC1.map Entry.emotion).count (most_freq_emotion exC1) →
      (exC1.map Entry.emotion).indexOf (most_freq_emotion exC1) ≤
        (exC1.map Entry.emotion).indexOf v)) :=
  ⟨by decide, C1_dominant_mood_first_appearance exC1 (by decide)⟩

/-! ### Claims C7 and C8: the Entry Store -/

/-- C7: submitting text that is empty after stripping whitespace reports the
validation error and leaves the store unchanged. -/
theorem C7_blank_text_rejected (store : List Entry) (emotion text : String)
    (today : Date) (h : pystrip text = "") :
    submitThought store emotion text today = (store, some emptyThoughtMsg) := by
  unfold submitThought
  rw [if_pos h]

/-- Witness for C7_blank_text_rejected on whitespace-only input. -/
theorem C7_blank_text_rejected_witness :
    pystrip (" \t ") = "" ∧
    submitThought [] ("Happy") (" \t ") { day := 5, month := 6, year := 2025 } =
      ([], some emptyThoughtMsg) :=
  ⟨by decide,
   C7_blank_text_rejected [] ("Happy") (" \t ") { day := 5, month := 6, year := 2025 }
     (by decide)⟩

/-- C8: submitting non-blank text succeeds and the store read back afterwards
is the old store with exactly one new entry appended at the end, carrying the
submitted text, the chosen emotion and the current date. -/
theorem C8_append_then_load (store : List Entry) (emotion text : String)
    (today : Date) (h : pystrip text ≠ "") :
    (submitThought store emotion text today).2 = none ∧
    load_thoughts_data (submitThought store emotion text today).1 =
      store ++ [{ date := today, emotion := emotion, thought := text }] ∧
    (load_thoughts_data (submitThought store emotion text today).1).getLast? =
      some { date := today, emotion := emotion, thought := text } := by
  unfold submitThought load_thoughts_data
  rw [if_neg h]
  refine ⟨rfl, rfl, ?_⟩
  exact List.getLast?_concat _

/-- Witness for C8_append_then_load on a concrete store and entry. -/
theorem C8_append_then_load_witness :
    pystrip ("nice day") ≠ "" ∧
    ((submitThought [] ("Happy") ("nice day") { day := 5, month := 6, year := 2025 }).2
        = none ∧
    load_thoughts_data
        (submitThought [] ("Happy") ("nice day") { day := 5, month := 6, year := 2025 }).1 =
      [] ++ [{ date := { day := 5, month := 6, year := 2025 }, emotion := "Happy",
               thought := "nice day" }] ∧
    (load_thoughts_data
        (submitThought [] ("Happy") ("nice day")
          { day := 5, month := 6, year := 2025 }).1).getLast? =
      some { date := { day := 5, month := 6, year := 2025 }, emotion := "Happy",
             thought := "nice day" }) :=
  ⟨by decide,
   C8_append_then_load [] ("Happy") ("nice day") { day := 5, month := 6, year := 2025 }
     (by decide)⟩

/-! ### Case lemmas for the per-period loop body -/

lemma pp_current {now : Date} {entries : List Entry} {f : Summarizer}
    {cache : List Report} {p : Period} (h : isCurrentMonth now p = true) :
    processPeriod now entries f cache p = (cache, genSummary entries f p) := by
  simp [processPeriod, h]

lemma pp_cached {now : Date} {entries : List Entry} {f : Summarizer}
    {cache : List Report} {p : Period} {r : Report}
    (h : isCurrentMonth now p = false) (hr : cacheLookup cache p = some r) :
    processPeriod now entries f cache p = (cache, r.ai_summary) := by
  simp [processPeriod, h, hr]

lemma pp_gen {now : Date} {entries : List Entry} {f : Summarizer}
    {cache : List Report} {p : Period}
    (h : isCurrentMonth now p = false) (hn : cacheLookup cache p = none) :
    processPeriod now entries f cache p =
      if genSummary entries f p = failureMarker then (cache, genSummary entries f p)
      else (cache ++ [mkReport entries p (genSummary entries f p)],
            genSummary entries f p) := by
  simp [processPeriod, h, hn]

lemma runAux_cons (now : Date) (entries : List Entry) (f : Summarizer)
    (p : Period) (ps : List Period) (cache : List Report) :
    runAux now entries f (p :: ps) cache =
      ((runAux now entries f ps (processPeriod now entries f cache p).1).1,
       (p, (processPeriod now entries f cache p).2) ::
         (runAux now entries f ps (processPeriod now entries f cache p).1).2) := rfl

lemma sameKey_mkReport (entries : List Entry) (q : Period) (s : String) (p : Period) :
    sameKey (mkReport entries q s) p = (q.month == p.month && q.year == p.year) := rfl

/-- Everything the loop appends to the reports dataframe: each new row is the
report of one processed period, built from that period's entries and generated
summary, and only for non-current periods whose summary is not the failure
marker. -/
lemma runAux_shape (now : Date) (entries : List Entry) (f : Summarizer) :
    ∀ (ps : List Period) (cache : List Report),
      ∃ rows, (runAux now entries f ps cache).1 = cache ++ rows ∧
        ∀ r ∈ rows, ∃ p, p ∈ ps ∧ r = mkReport entries p (genSummary entries f p) ∧
          isCurrentMonth now p = false ∧ genSummary entries f p ≠ failureMarker := by
  intro ps
  induction ps with
  | nil => intro cache; exact ⟨[], by simp [runAux], by simp⟩
  | cons p ps ih =>
    intro cache
    rw [runAux_cons]
    by_cases hc : isCurrentMonth now p = true
    · obtain ⟨rows, h1, h2⟩ := ih cache
      refine ⟨rows, ?_, ?_⟩
      · rw [pp_current hc]; exact h1
      · intro r hr
        obtain ⟨q, hq, hrest⟩ := h2 r hr
        exact ⟨q, List.mem_cons_of_mem _ hq, hrest⟩
    · rw [Bool.not_eq_true] at hc
      cases hl : cacheLookup cache p with
      | some r0 =>
        obtain ⟨rows, h1, h2⟩ := ih cache
        refine ⟨rows, ?_, ?_⟩
        · rw [pp_cached hc hl]; exact h1
        · intro r hr
          obtain ⟨q, hq, hrest⟩ := h2 r hr
          exact ⟨q, List.mem_cons_of_mem _ hq, hrest⟩
      | none =>
        by_cases hs : genSummary entries f p = failureMarker
        · obtain ⟨rows, h1, h2⟩ := ih cache
          refine ⟨rows, ?_, ?_⟩
          · rw [pp_gen hc hl]
            simp only [if_pos hs]
            exact h1
          · intro r hr
            obtain ⟨q, hq, hrest⟩ := h2 r hr
            exact ⟨q, List.mem_cons_of_mem _ hq, hrest⟩
        · obtain ⟨rows, h1, h2⟩ :=
            ih (cache ++ [mkReport entries p (genSummary entries f p)])
          refine ⟨mkReport entries p (genSummary entries f p) :: rows, ?_, ?_⟩
          · rw [pp_gen hc hl]
            simp only [if_neg hs]
            rw [h1, List.append_assoc]
            rfl
          · intro r hr
            rcases List.mem_cons.1 hr with h | h
            · exact ⟨p, List.mem_cons_self _ _, h, hc, hs⟩
            · obtain ⟨q, hq, hrest⟩ := h2 r h
              exact ⟨q, List.mem_cons_of_mem _ hq, hrest⟩

lemma cacheHas_append (c rows : List Report) (p : Period) :
    cacheHas (c ++ rows) p = (cacheHas c p || cacheHas rows p) := by
  simp [cacheHas]

lemma cacheHas_eq_false_iff {c : List Report} {p : Period} :
    cacheHas c p = false ↔ ∀ r ∈ c, sameKey r p = false := by
  simp [cacheHas]

/-! ### Claim C2: the current period is never cached -/

/-- One run never adds a row keyed by the current period. -/
lemma run_no_current_key (now : Date) (entries : List Entry) (f : Summarizer)
    (cache : List Report)
    (h : cacheHas cache { month := now.month, year := now.year } = false) :
    cacheHas (runCache now entries f cache)
      { month := now.month, year := now.year } = false := by
  obtain ⟨rows, h1, h2⟩ := runAux_shape now entries f (uniquePeriods entries) cache
  rw [runCache, runReports, h1, cacheHas_append, h, Bool.false_or]
  rw [cacheHas_eq_false_iff]
  intro r hr
  obtain ⟨q, _, hq, hcur, _⟩ := h2 r hr
  rw [hq, sameKey_mkReport]
  exact hcur

/-- C2: starting from a reports cache with no row for the current (month,
year), any number of consecutive runs of the report pipeline (over possibly
different entry stores and summarizers, while the same period stays current)
leaves the cache without a row for the current period. -/
theorem C2_current_period_never_cached (now : Date)
    (runs : List (List Entry × Summarizer)) (cache : List Report)
    (h : cacheHas cache { month := now.month, year := now.year } = false) :
    cacheHas
      (runs.foldl (fun c run => runCache now run.1 run.2 c) cache)
      { month := now.month, year := now.year } = false := by
  induction runs generalizing cache with
  | nil => exact h
  | cons run runs ih =>
    exact ih (runCache now run.1 run.2 cache) (run_no_current_key now run.1 run.2 cache h)

/-- A deterministic summarizer that always succeeds, used in witnesses. -/
def okSummarizer : Summarizer := fun _ => Except.ok ("a fine summary")

/-- A summarizer whose call always fails, used in witnesses. -/
def badSummarizer : Summarizer := fun _ => Except.error ("network down")

/-- A single concrete entry in January 2024. -/
def exEntryJan : Entry :=
  { date := { day := 7, month := 1, year := 2024 }, emotion := "Happy", thought := "h" }

/-- A single concrete entry in February 2024. -/
def exEntryFeb : Entry :=
  { date := { day := 3, month := 2, year := 2024 }, emotion := "Sad", thought := "k" }

/-- Witness for C2_current_period_never_cached: one run over an entry store
whose only entry lies in the current month, starting from the empty cache. -/
theorem C2_current_period_never_cached_witness :
    cacheHas [] { month := 1, year := 2024 } = false ∧
    cacheHas
      (List.foldl (fun c run => runCache { day := 7, month := 1, year := 2024 } run.1 run.2 c)
        [] [([exEntryJan], okSummarizer)])
      { month := 1, year := 2024 } = false :=
  ⟨by decide,
   C2_current_period_never_cached { day := 7, month := 1, year := 2024 }
     [([exEntryJan], okSummarizer)] [] (by decide)⟩

/-! ### Claim C10: mood counts sum to the total -/

lemma count_three_partition (l : List String)
    (h : ∀ v ∈ l, v = moodHappy ∨ v = moodSad ∨ v = moodAngry) :
    l.count moodHappy + l.count moodSad + l.count moodAngry = l.length := by
  induction l with
  | nil => simp
  | cons a t ih =>
    have ha := h a (List.mem_cons_self _ _)
    have ht := ih (fun v hv => h v (List.mem_cons_of_mem _ hv))
    have hHS : moodSad ≠ moodHappy := by decide
    have hHA : moodAngry ≠ moodHappy := by decide
    have hSH : moodHappy ≠ moodSad := by decide
    have hSA : moodAngry ≠ moodSad := by decide
    have hAH : moodHappy ≠ moodAngry := by decide
    have hAS : moodSad ≠ moodAngry := by decide
    rcases ha with h1 | h1 | h1 <;> subst h1
    · rw [List.count_cons_self, List.count_cons_of_ne hHS, List.count_cons_of_ne hHA]
      simp only [List.length_cons]; omega
    · rw [List.count_cons_self, List.count_cons_of_ne hSH, List.count_cons_of_ne hSA]
      simp only [List.length_cons]; omega
    · rw [List.count_cons_self, List.count_cons_of_ne hAH, List.count_cons_of_ne hAS]
      simp only [List.length_cons]; omega

/-- C10: every report row the pipeline newly writes to the cache whose period
contains only the three closed-set moods has happy_count + sad_count +
angry_count equal to total_thoughts. -/
theorem C10_counts_sum_to_total (now : Date) (entries : List Entry)
    (f : Summarizer) (cache : List Report) :
    ∀ r ∈ runCache now entries f cache, r ∉ cache →
      (∀ e ∈ periodEntries entries { month := r.month, year := r.year },
        e.emotion = moodHappy ∨ e.emotion = moodSad ∨ e.emotion = moodAngry) →
      r.happy_count + r.sad_count + r.angry_count = r.total_thoughts := by
  intro r hr hnotin hall
  obtain ⟨rows, h1, h2⟩ := runAux_shape now entries f (uniquePeriods entries) cache
  rw [runCache, runReports, h1] at hr
  rcases List.mem_append.1 hr with h | h
  · exact absurd h hnotin
  obtain ⟨p, _, hq, _, _⟩ := h2 r h
  subst hq
  have hall' : ∀ e ∈ periodEntries entries p,
      e.emotion = moodHappy ∨ e.emotion = moodSad ∨ e.emotion = moodAngry := hall
  simp only [mkReport]
  unfold happy_count sad_count angry_count
  have hmap : ∀ v ∈ (periodEntries entries p).map Entry.emotion,
      v = moodHappy ∨ v = moodSad ∨ v = moodAngry := by
    intro v hv
    obtain ⟨e, he, hev⟩ := List.mem_map.1 hv
    rw [← hev]
    exact hall' e he
  have hc := count_three_partition ((periodEntries entries p).map Entry.emotion) hmap
  rw [List.length_map] at hc
  exact hc

/-- The report row written for January 2024 in the C10 witness run. -/
def exReportJan : Report :=
  { month := 1, year := 2024, total_thoughts := 1, most_frequent_emotion := "Happy",
    happy_count := 1, sad_count := 0, angry_count := 0, ai_summary := "a fine summary" }

/-- Witness for C10_counts_sum_to_total: one run over a single past January
2024 entry, from the empty cache, writes exReportJan, whose counts sum to
its total. -/
theorem C10_counts_sum_to_total_witness :
    exReportJan ∈ runCache { day := 1, month := 2, year := 2024 } [exEntryJan]
        okSummarizer [] ∧
    exReportJan ∉ ([] : List Report) ∧
    (∀ e ∈ periodEntries [exEntryJan]
        { month := exReportJan.month, year := exReportJan.year },
      e.emotion = moodHappy ∨ e.emotion = moodSad ∨ e.emotion = moodAngry) ∧
    exReportJan.happy_count + exReportJan.sad_count + exReportJan.angry_count =
      exReportJan.total_thoughts :=
  ⟨by decide, by decide, by decide,
   C10_counts_sum_to_total { day := 1, month := 2, year := 2024 } [exEntryJan]
     okSummarizer [] exReportJan (by decide) (by decide) (by decide)⟩

/-! ### Cache bookkeeping lemmas -/

lemma cacheHas_false_iff_lookup_none {c : List Report} {p : Period} :
    cacheHas c p = false ↔ cacheLookup c p = none := by
  rw [cacheHas_eq_false_iff, cacheLookup, List.find?_eq_none]
  constructor
  · intro h r hr; rw [h r hr]; simp
  · intro h r hr
    have hh := h r hr
    simpa using hh

lemma cacheLookup_append_some {c : List Report} {p : Period} {r : Report}
    (h : cacheLookup c p = some r) (rows : List Report) :
    cacheLookup (c ++ rows) p = some r := by
  induction c with
  | nil => exact absurd h (by simp [cacheLookup])
  | cons a c ih =>
    rw [cacheLookup, List.cons_append] at *
    cases hk : sameKey a p
    · rw [List.find?_cons_of_neg _ (by simp [hk])] at h
      rw [List.find?_cons_of_neg _ (by simp [hk])]
      exact ih h
    · rw [List.find?_cons_of_pos _ (by simp [hk])] at h
      rw [List.find?_cons_of_pos _ (by simp [hk])]
      exact h

lemma period_eq_of_sameKey {entries : List Entry} {q : Period} {s : String} {p : Period}
    (h : sameKey (mkReport entries q s) p = true) : q = p := by
  rw [sameKey_mkReport] at h
  simp only [Bool.and_eq_true, beq_iff_eq] at h
  cases q; cases p
  simp_all

lemma sameKey_mkReport_self (entries : List Entry) (p : Period) (s : String) :
    sameKey (mkReport entries p s) p = true := by
  rw [sameKey_mkReport]
  simp

/-! ### Projection forms of the per-period case lemmas -/

lemma pp_fst_cur {now : Date} {entries : List Entry} {f : Summarizer}
    {cache : List Report} {p : Period} (h : isCurrentMonth now p = true) :
    (processPeriod now entries f cache p).1 = cache := by
  rw [pp_current h]

lemma pp_snd_cur {now : Date} {entries : List Entry} {f : Summarizer}
    {cache : List Report} {p : Period} (h : isCurrentMonth now p = true) :
    (processPeriod now entries f cache p).2 = genSummary entries f p := by
  rw [pp_current h]

lemma pp_fst_cached {now : Date} {entries : List Entry} {f : Summarizer}
    {cache : List Report} {p : Period} {r : Report}
    (h : isCurrentMonth now p = false) (hr : cacheLookup cache p = some r) :
    (processPeriod now entries f cache p).1 = cache := by
  rw [pp_cached h hr]

lemma pp_snd_cached {now : Date} {entries : List Entry} {f : Summarizer}
    {cache : List Report} {p : Period} {r : Report}
    (h : isCurrentMonth now p = false) (hr : cacheLookup cache p = some r) :
    (processPeriod now entries f cache p).2 = r.ai_summary := by
  rw [pp_cached h hr]

lemma pp_snd_gen {now : Date} {entries : List Entry} {f : Summarizer}
    {cache : List Report} {p : Period}
    (h : isCurrentMonth now p = false) (hn : cacheLookup cache p = none) :
    (processPeriod now entries f cache p).2 = genSummary entries f p := by
  rw [pp_gen h hn]
  split <;> rfl

lemma pp_fst_gen_fail {now : Date} {entries : List Entry} {f : Summarizer}
    {cache : List Report} {p : Period}
    (h : isCurrentMonth now p = false) (hn : cacheLookup cache p = none)
    (hs : genSummary entries f p = failureMarker) :
    (processPeriod now entries f cache p).1 = cache := by
  rw [pp_gen h hn, if_pos hs]

lemma pp_fst_gen_ok {now : Date} {entries : List Entry} {f : Summarizer}
    {cache : List Report} {p : Period}
    (h : isCurrentMonth now p = false) (hn : cacheLookup cache p = none)
    (hs : genSummary entries f p ≠ failureMarker) :
    (processPeriod now entries f cache p).1 =
      cache ++ [mkReport entries p (genSummary entries f p)] := by
  rw [pp_gen h hn, if_neg hs]

lemma pp_cache_cases (now : Date) (entries : List Entry) (f : Summarizer)
    (cache : List Report) (q : Period) :
    (processPeriod now entries f cache q).1 = cache ∨
    ∃ s, (processPeriod now entries f cache q).1 = cache ++ [mkReport entries q s] := by
  by_cases hc : isCurrentMonth now q = true
  · exact Or.inl (pp_fst_cur hc)
  rw [Bool.not_eq_true] at hc
  cases hl : cacheLookup cache q with
  | some r => exact Or.inl (pp_fst_cached hc hl)
  | none =>
    by_cases hs : genSummary entries f q = failureMarker
    · exact Or.inl (pp_fst_gen_fail hc hl hs)
    · exact Or.inr ⟨_, pp_fst_gen_ok hc hl hs⟩

lemma pp_has_false {now : Date} {entries : List Entry} {f : Summarizer}
    {cache : List Report} {q p : Period} (hne : q ≠ p)
    (h : cacheHas cache p = false) :
    cacheHas (processPeriod now entries f cache q).1 p = false := by
  rcases pp_cache_cases now entries f cache q with hc | ⟨s, hc⟩
  · rw [hc]; exact h
  · rw [hc, cacheHas_append, h, Bool.false_or]
    rw [cacheHas_eq_false_iff]
    intro r hr
    rw [List.mem_singleton] at hr
    subst hr
    by_contra hk
    rw [Bool.not_eq_false] at hk
    exact hne (period_eq_of_sameKey hk)

lemma pp_lookup_some {now : Date} {entries : List Entry} {f : Summarizer}
    {cache : List Report} {q p : Period} {r : Report}
    (h : cacheLookup cache p = some r) :
    cacheLookup (processPeriod now entries f cache q).1 p = some r := by
  rcases pp_cache_cases now entries f cache q with hc | ⟨s, hc⟩ <;> rw [hc]
  · exact h
  · exact cacheLookup_append_some h _

/-! ### Whole-run cache lemmas -/

lemma runAux_absent (now : Date) (entries : List Entry) (f : Summarizer) :
    ∀ (ps : List Period) (cache : List Report) (p : Period),
      p ∉ ps → cacheHas cache p = false →
      cacheHas (runAux now entries f ps cache).1 p = false := by
  intro ps
  induction ps with
  | nil => intro cache p _ h; exact h
  | cons q ps ih =>
    intro cache p hnp h
    rw [runAux_cons]
    exact ih _ _ (fun hm => hnp (List.mem_cons_of_mem _ hm))
      (pp_has_false (fun he => hnp (he ▸ List.mem_cons_self _ _)) h)

lemma runAux_has_mono (now : Date) (entries : List Entry) (f : Summarizer)
    (ps : List Period) (cache : List Report) (p : Period)
    (h : cacheHas cache p = true) :
    cacheHas (runAux now entries f ps cache).1 p = true := by
  obtain ⟨rows, h1, -⟩ := runAux_shape now entries f ps cache
  rw [h1, cacheHas_append, h, Bool.true_or]

lemma runAux_mem_mono (now : Date) (entries : List Entry) (f : Summarizer)
    (ps : List Period) (cache : List Report) {r : Report} (h : r ∈ cache) :
    r ∈ (runAux now entries f ps cache).1 := by
  obtain ⟨rows, h1, -⟩ := runAux_shape now entries f ps cache
  rw [h1]
  exact List.mem_append.2 (Or.inl h)

lemma runAux_lookup_some (now : Date) (entries : List Entry) (f : Summarizer)
    (ps : List Period) (cache : List Report) {p : Period} {r : Report}
    (h : cacheLookup cache p = some r) :
    cacheLookup (runAux now entries f ps cache).1 p = some r := by
  obtain ⟨rows, h1, -⟩ := runAux_shape now entries f ps cache
  rw [h1]
  exact cacheLookup_append_some h rows

lemma runAux_fixpoint (now : Date) (entries : List Entry) (f : Summarizer) :
    ∀ (ps : List Period) (cache : List Report),
      (∀ p ∈ ps, (processPeriod now entries f cache p).1 = cache) →
      (runAux now entries f ps cache).1 = cache := by
  intro ps
  induction ps with
  | nil => intro cache _; rfl
  | cons p ps ih =>
    intro cache h
    rw [runAux_cons, h p (List.mem_cons_self _ _)]
    exact ih cache (fun q hq => h q (List.mem_cons_of_mem _ hq))

lemma nodup_uniquePeriods (entries : List Entry) : (uniquePeriods entries).Nodup :=
  ((List.perm_insertionSort periodLe _).nodup_iff).2 (nodup_firstOccs _)

/-- Processing a period that is absent from the cache: its displayed summary
is the generated one, and afterwards the cache holds a row for it exactly when
the period is past and the summary is not the failure marker. -/
lemma runAux_gen (now : Date) (entries : List Entry) (f : Summarizer) :
    ∀ (ps : List Period) (cache : List Report) (p : Period),
      ps.Nodup → p ∈ ps → cacheHas cache p = false →
      ((p, genSummary entries f p) ∈ (runAux now entries f ps cache).2 ∧
       (cacheHas (runAux now entries f ps cache).1 p = true ↔
         (isCurrentMonth now p = false ∧ genSummary entries f p ≠ failureMarker))) := by
  intro ps
  induction ps with
  | nil => intro cache p _ hp _; exact absurd hp (List.not_mem_nil p)
  | cons q ps ih =>
    intro cache p hnd hp h0
    rw [runAux_cons]
    rcases List.mem_cons.1 hp with heq | hmem
    · subst heq
      have hpnot : p ∉ ps := (List.nodup_cons.1 hnd).1
      have hlnone : cacheLookup cache p = none := cacheHas_false_iff_lookup_none.1 h0
      by_cases hc : isCurrentMonth now p = true
      · rw [pp_snd_cur hc, pp_fst_cur hc]
        refine ⟨List.mem_cons_self _ _, ?_⟩
        rw [runAux_absent now entries f ps cache p hpnot h0]
        simp [hc]
      · rw [Bool.not_eq_true] at hc
        rw [pp_snd_gen hc hlnone]
        refine ⟨List.mem_cons_self _ _, ?_⟩
        by_cases hs : genSummary entries f p = failureMarker
        · rw [pp_fst_gen_fail hc hlnone hs]
          rw [runAux_absent now entries f ps cache p hpnot h0]
          simp [hs]
        · rw [pp_fst_gen_ok hc hlnone hs]
          have hone : cacheHas
              (cache ++ [mkReport entries p (genSummary entries f p)]) p = true := by
            rw [cacheHas_append, Bool.or_eq_true]
            refine Or.inr ?_
            simp [cacheHas, sameKey_mkReport_self]
          rw [runAux_has_mono now entries f ps _ p hone]
          simp [hc, hs]
    · have hqp : q ≠ p := fun he => (List.nodup_cons.1 hnd).1 (he ▸ hmem)
      have h0' : cacheHas (processPeriod now entries f cache q).1 p = false :=
        pp_has_false hqp h0
      obtain ⟨hout, hiff⟩ := ih _ p (List.nodup_cons.1 hnd).2 hmem h0'
      exact ⟨List.mem_cons_of_mem _ hout, hiff⟩

/-- Processing a past period already in the cache: its cached summary is the
one displayed. -/
lemma runAux_cached (now : Date) (entries : List Entry) (f : Summarizer) :
    ∀ (ps : List Period) (cache : List Report) (p : Period) (r : Report),
      isCurrentMonth now p = false → cacheLookup cache p = some r → p ∈ ps →
      (p, r.ai_summary) ∈ (runAux now entries f ps cache).2 := by
  intro ps
  induction ps with
  | nil => intro _ _ _ _ _ hp; exact absurd hp (List.not_mem_nil _)
  | cons q ps ih =>
    intro cache p r hcur hr hp
    rw [runAux_cons]
    rcases List.mem_cons.1 hp with heq | hmem
    · subst heq
      rw [pp_snd_cached hcur hr]
      exact List.mem_cons_self _ _
    · exact List.mem_cons_of_mem _ (ih _ _ _ hcur (pp_lookup_some hr) hmem)

/-- Every enumerated period is processed and appears, in order, in the run's
displayed output. -/
lemma runAux_out_fst (now : Date) (entries : List Entry) (f : Summarizer) :
    ∀ (ps : List Period) (cache : List Report),
      (runAux now entries f ps cache).2.map Prod.fst = ps := by
  intro ps
  induction ps with
  | nil => intro cache; rfl
  | cons p ps ih =>
    intro cache
    rw [runAux_cons]
    simp only [List.map_cons]
    rw [ih]

/-- Every displayed summary is either the generated summary of its own period
or the ai_summary of a row of the final cache. -/
lemma runAux_out_mem (now : Date) (entries : List Entry) (f : Summarizer) :
    ∀ (ps : List Period) (cache : List Report) (q : Period) (s : String),
      (q, s) ∈ (runAux now entries f ps cache).2 →
      q ∈ ps ∧ (s = genSummary entries f q ∨
        ∃ r, r ∈ (runAux now entries f ps cache).1 ∧ s = r.ai_summary) := by
  intro ps
  induction ps with
  | nil => intro cache q s h; exact absurd h (List.not_mem_nil _)
  | cons q0 ps ih =>
    intro cache q s h
    rw [runAux_cons] at h ⊢
    rcases List.mem_cons.1 h with hh | hh
    · have hq : q = q0 := congrArg Prod.fst hh
      have hs : s = (processPeriod now entries f cache q0).2 := congrArg Prod.snd hh
      subst hq
      refine ⟨List.mem_cons_self _ _, ?_⟩
      by_cases hc : isCurrentMonth now q = true
      · exact Or.inl (by rw [hs, pp_snd_cur hc])
      rw [Bool.not_eq_true] at hc
      cases hl : cacheLookup cache q with
      | none => exact Or.inl (by rw [hs, pp_snd_gen hc hl])
      | some r =>
        refine Or.inr ⟨r, ?_, by rw [hs, pp_snd_cached hc hl]⟩
        have hrc : r ∈ cache := List.mem_of_find?_eq_some hl
        have hrstep : r ∈ (processPeriod now entries f cache q).1 := by
          rw [pp_fst_cached hc hl]
          exact hrc
        exact runAux_mem_mono now entries f ps _ hrstep
    · obtain ⟨hin, hcase⟩ := ih _ _ _ hh
      exact ⟨List.mem_cons_of_mem _ hin, hcase⟩

/-! ### Claim C9: the enumerated periods -/

/-- C9: the enumerated periods are exactly the distinct (month, year) pairs
carrying at least one entry, without duplicates, sorted by year descending
then month descending. -/
theorem C9_unique_periods (entries : List Entry) :
    (∀ p, p ∈ uniquePeriods entries ↔ ∃ e ∈ entries, entryPeriod e = p) ∧
    (uniquePeriods entries).Sorted periodLe ∧
    (uniquePeriods entries).Nodup := by
  refine ⟨?_, List.sorted_insertionSort periodLe _, nodup_uniquePeriods entries⟩
  intro p
  rw [uniquePeriods, (List.perm_insertionSort periodLe _).mem_iff, mem_firstOccs]
  exact List.mem_map

/-! ### Claim C5: idempotence of the pipeline -/

/-- C5: with the same entries and the same (hence deterministic) summarizer,
running the pipeline a second time leaves the reports cache of the first run
unchanged: no duplicate rows and no mutated rows. -/
theorem C5_run_idempotent (now : Date) (entries : List Entry) (f : Summarizer)
    (cache : List Report) :
    runCache now entries f (runCache now entries f cache) =
      runCache now entries f cache := by
  show (runAux now entries f (uniquePeriods entries) (runCache now entries f cache)).1 =
    runCache now entries f cache
  apply runAux_fixpoint
  intro p hp
  by_cases hc : isCurrentMonth now p = true
  · exact pp_fst_cur hc
  rw [Bool.not_eq_true] at hc
  cases hl : cacheLookup (runCache now entries f cache) p with
  | some r => exact pp_fst_cached hc hl
  | none =>
    have hnone : cacheHas (runCache now entries f cache) p = false :=
      cacheHas_false_iff_lookup_none.2 hl
    cases h0 : cacheHas cache p with
    | true =>
      have hmono : cacheHas (runCache now entries f cache) p = true :=
        runAux_has_mono now entries f (uniquePeriods entries) cache p h0
      rw [hmono] at hnone
      exact Bool.noConfusion hnone
    | false =>
      obtain ⟨-, hiff⟩ := runAux_gen now entries f (uniquePeriods entries) cache p
        (nodup_uniquePeriods entries) hp h0
      have hgen : genSummary entries f p = failureMarker := by
        by_contra hg
        have htrue : cacheHas (runCache now entries f cache) p = true := hiff.2 ⟨hc, hg⟩
        rw [htrue] at hnone
        exact Bool.noConfusion hnone
      exact pp_fst_gen_fail hc hl hgen

/-! ### Claim C4: cached past periods are reused untouched -/

/-- C4: for a non-current period already in the cache, the loop body returns
the cached row's summary verbatim and leaves the cache unchanged for every
summarizer (so the summarizer is never consulted for that period), the row is
still the first lookup result after the whole run, and the displayed output
for that period is the cached summary. -/
theorem C4_cached_period_reused (now : Date) (entries : List Entry)
    (cache : List Report) (p : Period) (r : Report)
    (hcur : isCurrentMonth now p = false)
    (hr : cacheLookup cache p = some r) :
    (∀ f : Summarizer, processPeriod now entries f cache p = (cache, r.ai_summary)) ∧
    (∀ f : Summarizer, cacheLookup (runCache now entries f cache) p = some r) ∧
    (∀ f : Summarizer, p ∈ uniquePeriods entries →
      (p, r.ai_summary) ∈ (runReports now entries f cache).2) := by
  refine ⟨fun f => pp_cached hcur hr, fun f => ?_, fun f hp => ?_⟩
  · exact runAux_lookup_some now entries f (uniquePeriods entries) cache hr
  · exact runAux_cached now entries f (uniquePeriods entries) cache p r hcur hr hp

/-- The January 2024 period. -/
def pJan : Period := { month := 1, year := 2024 }

/-- The February 2024 period. -/
def pFeb : Period := { month := 2, year := 2024 }

/-- A run date inside February 2024. -/
def nowFeb : Date := { day := 1, month := 2, year := 2024 }

/-- A run date inside March 2024. -/
def nowMar : Date := { day := 1, month := 3, year := 2024 }

/-- A pre-existing cached report row for January 2024. -/
def rJan : Report :=
  { month := 1, year := 2024, total_thoughts := 1, most_frequent_emotion := "Happy",
    happy_count := 1, sad_count := 0, angry_count := 0,
    ai_summary := "old cached summary" }

/-- Witness for C4_cached_period_reused: January 2024 is cached, the run date
is February 2024, and the summarizer would fail if it were ever called. -/
theorem C4_cached_period_reused_witness :
    isCurrentMonth nowFeb pJan = false ∧
    cacheLookup [rJan] pJan = some rJan ∧
    processPeriod nowFeb [exEntryJan] badSummarizer [rJan] pJan =
      ([rJan], rJan.ai_summary) ∧
    cacheLookup (runCache nowFeb [exEntryJan] badSummarizer [rJan]) pJan = some rJan ∧
    (pJan, rJan.ai_summary) ∈ (runReports nowFeb [exEntryJan] badSummarizer [rJan]).2 :=
  ⟨by decide, by decide,
   (C4_cached_period_reused nowFeb [exEntryJan] [rJan] pJan rJan (by decide)
      (by decide)).1 badSummarizer,
   (C4_cached_period_reused nowFeb [exEntryJan] [rJan] pJan rJan (by decide)
      (by decide)).2.1 badSummarizer,
   (C4_cached_period_reused nowFeb [exEntryJan] [rJan] pJan rJan (by decide)
      (by decide)).2.2 badSummarizer (by decide)⟩

/-! ### Claim C3: failed summaries are not cached and are retried -/

/-- C3: when the summarizer call for a period with text fails, that period's
displayed summary is the failure marker and the run writes no cache row for
it; a later run whose summarizer succeeds with a proper summary then caches
the (past) period. -/
theorem C3_failed_summary_not_cached (now : Date) (entries : List Entry)
    (f g : Summarizer) (cache : List Report) (p : Period) (msg newSummary : String)
    (hp : p ∈ uniquePeriods entries)
    (hnc : cacheHas cache p = false)
    (hnb : pystrip (periodText entries p) ≠ "")
    (hfail : f (periodText entries p) = Except.error msg)
    (hsucc : g (periodText entries p) = Except.ok newSummary)
    (hnm : newSummary ≠ failureMarker) :
    (p, failureMarker) ∈ (runReports now entries f cache).2 ∧
    cacheHas (runCache now entries f cache) p = false ∧
    (isCurrentMonth now p = false →
      cacheHas (runCache now entries g (runCache now entries f cache)) p = true) := by
  have hgenf : genSummary entries f p = failureMarker := by
    unfold genSummary
    rw [if_neg hnb, hfail]
  have hgeng : genSummary entries g p = newSummary := by
    unfold genSummary
    rw [if_neg hnb, hsucc]
  obtain ⟨hout, hiff⟩ := runAux_gen now entries f (uniquePeriods entries) cache p
    (nodup_uniquePeriods entries) hp hnc
  rw [hgenf] at hout
  have hafter : cacheHas (runCache now entries f cache) p = false := by
    cases hb : cacheHas (runCache now entries f cache) p with
    | false => rfl
    | true =>
      have hb' : cacheHas (runAux now entries f (uniquePeriods entries) cache).1 p =
        true := hb
      obtain ⟨-, hne⟩ := hiff.1 hb'
      exact absurd hgenf hne
  refine ⟨hout, hafter, ?_⟩
  intro hcur
  obtain ⟨-, hiff2⟩ := runAux_gen now entries g (uniquePeriods entries)
    (runCache now entries f cache) p (nodup_uniquePeriods entries) hp hafter
  exact hiff2.2 ⟨hcur, by rw [hgeng]; exact hnm⟩

/-- Witness for C3_failed_summary_not_cached: a single past January 2024
entry, the failing then the succeeding summarizer, from the empty cache. -/
theorem C3_failed_summary_not_cached_witness :
    (pJan ∈ uniquePeriods [exEntryJan]) ∧
    cacheHas [] pJan = false ∧
    pystrip (periodText [exEntryJan] pJan) ≠ "" ∧
    badSummarizer (periodText [exEntryJan] pJan) = Except.error ("network down") ∧
    okSummarizer (periodText [exEntryJan] pJan) = Except.ok ("a fine summary") ∧
    ("a fine summary" : String) ≠ failureMarker ∧
    ((pJan, failureMarker) ∈ (runReports nowFeb [exEntryJan] badSummarizer []).2 ∧
     cacheHas (runCache nowFeb [exEntryJan] badSummarizer []) pJan = false ∧
     (isCurrentMonth nowFeb pJan = false →
       cacheHas (runCache nowFeb [exEntryJan] okSummarizer
         (runCache nowFeb [exEntryJan] badSummarizer [])) pJan = true)) :=
  ⟨by decide, by decide, by decide, rfl, rfl, by decide,
   C3_failed_summary_not_cached nowFeb [exEntryJan] badSummarizer okSummarizer []
     pJan ("network down") ("a fine summary")
     (by decide) (by decide) (by decide) rfl rfl (by decide)⟩

/-! ### Claim C6: a summarizer failure is contained to its period -/

/-- C6: a summarizer failure on one period does not abort the loop: every
enumerated period still yields an output, the failed period's output is the
failure marker, and (when no other failure source is present: the initial
cache is marker-free and the summarizer succeeds properly on every other
period with text) no other period's output is the failure marker. -/
theorem C6_failure_contained (now : Date) (entries : List Entry) (f : Summarizer)
    (cache : List Report) (p : Period) (msg : String)
    (hp : p ∈ uniquePeriods entries)
    (hnb : pystrip (periodText entries p) ≠ "")
    (hnc : cacheHas cache p = false)
    (hfail : f (periodText entries p) = Except.error msg)
    (hothers : ∀ q, q ∈ uniquePeriods entries → q ≠ p →
      pystrip (periodText entries q) ≠ "" →
      ∃ s, f (periodText entries q) = Except.ok s ∧ s ≠ failureMarker)
    (hcache : ∀ r ∈ cache, r.ai_summary ≠ failureMarker) :
    ((runReports now entries f cache).2.map Prod.fst = uniquePeriods entries) ∧
    ((p, failureMarker) ∈ (runReports now entries f cache).2) ∧
    (∀ q s, (q, s) ∈ (runReports now entries f cache).2 → q ≠ p →
      s ≠ failureMarker) := by
  have hgenf : genSummary entries f p = failureMarker := by
    unfold genSummary
    rw [if_neg hnb, hfail]
  refine ⟨runAux_out_fst now entries f (uniquePeriods entries) cache, ?_, ?_⟩
  · have h := (runAux_gen now entries f (uniquePeriods entries) cache p
      (nodup_uniquePeriods entries) hp hnc).1
    rw [hgenf] at h
    exact h
  · intro q s hqs hqp
    obtain ⟨hqin, hcase⟩ :=
      runAux_out_mem now entries f (uniquePeriods entries) cache q s hqs
    rcases hcase with hgen | ⟨r, hrmem, hs⟩
    · subst hgen
      by_cases hb : pystrip (periodText entries q) = ""
      · unfold genSummary
        rw [if_pos hb]
        decide
      · obtain ⟨s', hok, hsne⟩ := hothers q hqin hqp hb
        unfold genSummary
        rw [if_neg hb, hok]
        exact hsne
    · subst hs
      obtain ⟨rows, hsh1, hsh2⟩ := runAux_shape now entries f (uniquePeriods entries) cache
      have hrmem' : r ∈ cache ++ rows := by rw [← hsh1]; exact hrmem
      rcases List.mem_append.1 hrmem' with hr | hr
      · exact hcache r hr
      · obtain ⟨q', hq'mem, hq', hcur', hgne⟩ := hsh2 r hr
        rw [hq']
        exact hgne

/-- A two-month entry store: one entry in January and one in February 2024. -/
def exStore2 : List Entry := [exEntryJan, exEntryFeb]

/-- A summarizer failing exactly on the January text and succeeding
elsewhere. -/
def mixedSummarizer : Summarizer :=
  fun s => if s = ("h") then Except.error ("boom") else Except.ok ("fine")

/-- Witness for C6_failure_contained: run in March 2024 over the two past
periods, with the summarizer failing only on January's text; February is
still processed and only January shows the marker. -/
theorem C6_failure_contained_witness :
    (pJan ∈ uniquePeriods exStore2) ∧
    pystrip (periodText exStore2 pJan) ≠ "" ∧
    cacheHas [] pJan = false ∧
    mixedSummarizer (periodText exStore2 pJan) = Except.error ("boom") ∧
    ((runReports nowMar exStore2 mixedSummarizer []).2.map Prod.fst =
       uniquePeriods exStore2 ∧
     (pJan, failureMarker) ∈ (runReports nowMar exStore2 mixedSummarizer []).2 ∧
     (("fine" : String) ≠ failureMarker)) := by
  have hothers : ∀ q, q ∈ uniquePeriods exStore2 → q ≠ pJan →
      pystrip (periodText exStore2 q) ≠ "" →
      ∃ s, mixedSummarizer (periodText exStore2 q) = Except.ok s ∧
        s ≠ failureMarker := by
    intro q hq hne _
    have hup : uniquePeriods exStore2 = [pFeb, pJan] := by decide
    rw [hup] at hq
    rcases List.mem_cons.1 hq with h | h
    · subst h
      exact ⟨"fine", rfl, by decide⟩
    · rcases List.mem_singleton.1 h with h
      exact absurd h hne
  have hmain := C6_failure_contained nowMar exStore2 mixedSummarizer [] pJan ("boom")
    (by decide) (by decide) (by decide) rfl hothers
    (fun r hr => absurd hr (List.not_mem_nil r))
  exact ⟨by decide, by decide, by decide, rfl,
    hmain.1, hmain.2.1, hmain.2.2 pFeb ("fine") (by decide) (by decide)⟩
